import Mathlib

/-!
Verification of the ashare analysis core.

Shallow embedding of the numeric services of the repository:
`src/services/pattern_matcher.py`, `src/services/technical_indicators.py`
and the batch endpoint of `src/api/routes_pattern.py`.

Python/numpy floats are idealised as exact arithmetic: rationals where the
source only uses field operations, reals where `np.sqrt` appears.
-/

namespace Ashare

/-! ## List minimum / maximum (models `np.min` / `np.max` on a nonempty array;
the empty case, which numpy rejects, is given the junk value 0). -/

def listMin {α : Type} [LinearOrderedField α] : List α → α
  | [] => 0
  | x :: xs => xs.foldl min x

def listMax {α : Type} [LinearOrderedField α] : List α → α
  | [] => 0
  | x :: xs => xs.foldl max x

theorem foldl_min_le_init {α : Type} [LinearOrderedField α] :
    ∀ (xs : List α) (a : α), xs.foldl min a ≤ a := by
  intro xs
  induction xs with
  | nil => intro a; exact le_refl a
  | cons x xs ih =>
    intro a
    exact le_trans (ih (min a x)) (min_le_left a x)

theorem foldl_min_le_mem {α : Type} [LinearOrderedField α] {b : α} :
    ∀ {xs : List α} (a : α), b ∈ xs → xs.foldl min a ≤ b := by
  intro xs
  induction xs with
  | nil => intro a h; cases h
  | cons x xs ih =>
    intro a h
    rcases List.mem_cons.mp h with rfl | h
    · exact le_trans (foldl_min_le_init xs (min a b)) (min_le_right a b)
    · exact ih (min a x) h

theorem init_le_foldl_max {α : Type} [LinearOrderedField α] :
    ∀ (xs : List α) (a : α), a ≤ xs.foldl max a := by
  intro xs
  induction xs with
  | nil => intro a; exact le_refl a
  | cons x xs ih =>
    intro a
    exact le_trans (le_max_left a x) (ih (max a x))

theorem mem_le_foldl_max {α : Type} [LinearOrderedField α] {b : α} :
    ∀ {xs : List α} (a : α), b ∈ xs → b ≤ xs.foldl max a := by
  intro xs
  induction xs with
  | nil => intro a h; cases h
  | cons x xs ih =>
    intro a h
    rcases List.mem_cons.mp h with rfl | h
    · exact le_trans (le_max_right a b) (init_le_foldl_max xs (max a b))
    · exact ih (max a x) h

theorem listMin_le_of_mem {α : Type} [LinearOrderedField α] {l : List α} {b : α}
    (h : b ∈ l) : listMin l ≤ b := by
  cases l with
  | nil => cases h
  | cons x xs =>
    rcases List.mem_cons.mp h with rfl | h
    · exact foldl_min_le_init xs b
    · exact foldl_min_le_mem x h

theorem le_listMax_of_mem {α : Type} [LinearOrderedField α] {l : List α} {b : α}
    (h : b ∈ l) : b ≤ listMax l := by
  cases l with
  | nil => cases h
  | cons x xs =>
    rcases List.mem_cons.mp h with rfl | h
    · exact init_le_foldl_max xs b
    · exact mem_le_foldl_max x h

theorem listMin_le_listMax {α : Type} [LinearOrderedField α] {l : List α}
    (h : l ≠ []) : listMin l ≤ listMax l := by
  cases l with
  | nil => exact absurd rfl h
  | cons x xs =>
    exact le_trans (listMin_le_of_mem (List.mem_cons_self x xs))
      (le_listMax_of_mem (List.mem_cons_self x xs))

/-! ## PatternMatcher.normalize_pattern (pattern_matcher.py lines 52-63) -/

/-- Model of `PatternMatcher.normalize_pattern`: sequences shorter than 2 are
returned unchanged; a constant sequence becomes all zeros; otherwise each
element is mapped to `(x - min) / (max - min)`. -/
def normalize_pattern {α : Type} [LinearOrderedField α] (prices : List α) : List α :=
  if prices.length < 2 then prices
  else if listMax prices = listMin prices then List.replicate prices.length 0
  else prices.map (fun x => (x - listMin prices) / (listMax prices - listMin prices))

theorem normalize_pattern_length {α : Type} [LinearOrderedField α] (prices : List α) :
    (normalize_pattern prices).length = prices.length := by
  unfold normalize_pattern
  split
  · rfl
  · split
    · exact List.length_replicate _ _
    · exact List.length_map _ _

/-- C5, counterexample: a singleton input is returned unchanged, so `5` (its own
minimum) maps to `5`, outside `[0,1]`; and in a constant sequence of length 2
the maximal input `7` maps to `0`, not `1`. -/
theorem normalize_pattern_c5_counterexample :
    normalize_pattern [(5 : ℚ)] = [5]
    ∧ ¬ ((normalize_pattern [(5 : ℚ)]).all (fun x => decide (0 ≤ x ∧ x ≤ 1)) = true)
    ∧ normalize_pattern [(7 : ℚ), 7] = [0, 0]
    ∧ (normalize_pattern [(7 : ℚ), 7]).getD 0 0 ≠ 1 := by
  refine ⟨by decide, by decide, by decide, by decide⟩

/-- C5, amended: for inputs of length at least 2 the output stays in `[0,1]`;
when the input is not constant, minimal entries map to 0 and maximal entries to
1; a constant input maps to the all-zero sequence of the same length. -/
theorem normalize_pattern_bounds (prices : List ℚ) (h2 : 2 ≤ prices.length) :
    (normalize_pattern prices).length = prices.length
    ∧ (∀ x ∈ normalize_pattern prices, 0 ≤ x ∧ x ≤ 1)
    ∧ (listMax prices = listMin prices →
        normalize_pattern prices = List.replicate prices.length 0)
    ∧ (listMax prices ≠ listMin prices →
        ∀ i, i < prices.length →
          (prices.getD i 0 = listMin prices → (normalize_pattern prices).getD i 0 = 0)
          ∧ (prices.getD i 0 = listMax prices → (normalize_pattern prices).getD i 0 = 1)) := by
  have hne : prices ≠ [] := by
    intro h; rw [h] at h2; exact absurd h2 (by decide)
  have hlt : ¬ prices.length < 2 := not_lt.mpr h2
  refine ⟨normalize_pattern_length prices, ?_, ?_, ?_⟩
  · -- all outputs in [0, 1]
    intro x hx
    unfold normalize_pattern at hx
    rw [if_neg hlt] at hx
    by_cases hc : listMax prices = listMin prices
    · rw [if_pos hc] at hx
      have := List.eq_of_mem_replicate hx
      subst this
      exact ⟨le_refl 0, by norm_num⟩
    · rw [if_neg hc] at hx
      rcases List.mem_map.mp hx with ⟨y, hy, rfl⟩
      have hmin : listMin prices ≤ y := listMin_le_of_mem hy
      have hmax : y ≤ listMax prices := le_listMax_of_mem hy
      have hpos : 0 < listMax prices - listMin prices :=
        sub_pos.mpr (lt_of_le_of_ne (listMin_le_listMax hne) (Ne.symm hc))
      constructor
      · exact div_nonneg (sub_nonneg.mpr hmin) (le_of_lt hpos)
      · rw [div_le_one hpos]
        exact sub_le_sub_right hmax _
  · -- constant input
    intro hc
    unfold normalize_pattern
    rw [if_neg hlt, if_pos hc]
  · -- non-constant input: min ↦ 0, max ↦ 1
    intro hc i hi
    have hmem : prices.getD i 0 ∈ prices := by
      rw [List.getD_eq_getElem prices 0 hi]
      exact List.getElem_mem hi
    have hpos : listMax prices - listMin prices ≠ 0 :=
      sub_ne_zero.mpr hc
    have hout : (normalize_pattern prices).getD i 0 =
        (prices.getD i 0 - listMin prices) / (listMax prices - listMin prices) := by
      unfold normalize_pattern
      rw [if_neg hlt, if_neg hc]
      have hi' : i < (prices.map
          (fun x => (x - listMin prices) / (listMax prices - listMin prices))).length := by
        rw [List.length_map]; exact hi
      rw [List.getD_eq_getElem _ 0 hi', List.getElem_map, List.getD_eq_getElem prices 0 hi]
    constructor
    · intro hmin
      rw [hout, hmin, sub_self, zero_div]
    · intro hmax
      rw [hout, hmax, div_self hpos]

/-- C5, witness: on `[1, 3]` the minimum maps to 0 and the maximum to 1. -/
theorem normalize_pattern_bounds_witness :
    (normalize_pattern [(1 : ℚ), 3]).getD 0 0 = 0
    ∧ (normalize_pattern [(1 : ℚ), 3]).getD 1 0 = 1 := by
  constructor
  · exact ((normalize_pattern_bounds [(1 : ℚ), 3] (by decide)).2.2.2
      (by decide) 0 (by decide)).1 (by decide)
  · exact ((normalize_pattern_bounds [(1 : ℚ), 3] (by decide)).2.2.2
      (by decide) 1 (by decide)).2 (by decide)

/-! ## SignalAnalyzer.analyze score aggregation (technical_indicators.py lines 263-278) -/

/-- Truncation toward zero, the behaviour of Python `int()` on a number. -/
def pyTrunc (q : ℚ) : ℤ := if q < 0 then -(⌊-q⌋) else ⌊q⌋

/-- Model of the score aggregation at the end of `SignalAnalyzer.analyze`
(`technical_indicators.py` lines 263-278), as a function of the buy and sell
signal counts. -/
def bullish_score (buy_count sell_count : ℕ) : ℤ :=
  min 5 (pyTrunc (3 + (buy_count : ℚ) / ((buy_count + sell_count : ℕ) : ℚ) * 2))

def bearish_score (buy_count sell_count : ℕ) : ℤ :=
  max 1 (pyTrunc (3 - (sell_count : ℚ) / ((buy_count + sell_count : ℕ) : ℚ) * 2))

def signal_score (buy_count sell_count : ℕ) : ℤ × String :=
  if buy_count + sell_count = 0 then (2, "中性")
  else if sell_count < buy_count then
    (bullish_score buy_count sell_count,
     if 4 ≤ bullish_score buy_count sell_count then "看涨" else "偏多")
  else if buy_count < sell_count then
    (bearish_score buy_count sell_count,
     if bearish_score buy_count sell_count ≤ 1 then "看跌" else "偏空")
  else (2, "中性")

/-- With `buy_count > sell_count` the ratio lies in `(1/2, 1]`, so
`3 + ratio*2` lies in `(4, 5]` and truncation gives 4 unless the ratio is
exactly 1 (no sell signals). -/
theorem bullish_score_eq (b s : ℕ) (h : s < b) :
    bullish_score b s = if s = 0 then 5 else 4 := by
  have htotQ : (0 : ℚ) < ((b + s : ℕ) : ℚ) := by
    exact_mod_cast (by omega : 0 < b + s)
  set q : ℚ := (b : ℚ) / ((b + s : ℕ) : ℚ) with hq
  have hq_gt : (1 : ℚ) / 2 < q := by
    rw [hq, div_lt_div_iff₀ (by norm_num) htotQ]
    have hcast : ((b + s : ℕ) : ℚ) = (b : ℚ) + (s : ℚ) := by push_cast; ring
    have hbs : (s : ℚ) < (b : ℚ) := by exact_mod_cast h
    rw [hcast]; linarith
  have harg : ¬ ((3 : ℚ) + q * 2 < 0) := not_lt.mpr (by nlinarith)
  unfold bullish_score pyTrunc
  rw [← hq, if_neg harg]
  by_cases hs : s = 0
  · have hq1 : q = 1 := by
      rw [hq, hs]
      have hb : ((b + 0 : ℕ) : ℚ) = (b : ℚ) := by push_cast; ring
      rw [hb]
      exact div_self (by exact_mod_cast (by omega : b ≠ 0))
    have h5 : ((3 : ℚ) + q * 2) = 5 := by rw [hq1]; norm_num
    rw [h5, if_pos hs]
    have hf : ⌊(5 : ℚ)⌋ = 5 := by
      rw [show (5 : ℚ) = ((5 : ℤ) : ℚ) by norm_num, Int.floor_intCast]
    rw [hf]
    exact min_self 5
  · have hq_lt : q < 1 := by
      rw [hq, div_lt_one htotQ]
      exact_mod_cast (by omega : b < b + s)
    have hfloor : ⌊(3 : ℚ) + q * 2⌋ = 4 := by
      apply Int.floor_eq_iff.mpr
      refine ⟨by push_cast; nlinarith, by push_cast; nlinarith⟩
    rw [hfloor, if_neg hs]
    exact min_eq_right (by norm_num)

theorem signal_score_bullish (b s : ℕ) (h : s < b) :
    signal_score b s = ((if s = 0 then 5 else 4 : ℤ), "看涨") := by
  unfold signal_score
  rw [if_neg (by omega : ¬ b + s = 0), if_pos h, bullish_score_eq b s h]
  by_cases hs : s = 0
  · simp only [if_pos hs]
    rw [if_pos (by norm_num : (4 : ℤ) ≤ 5)]
  · simp only [if_neg hs]
    rw [if_pos (le_refl (4 : ℤ))]

theorem bearish_score_eq (b s : ℕ) (h : b < s) : bearish_score b s = 1 := by
  have htotQ : (0 : ℚ) < ((b + s : ℕ) : ℚ) := by
    exact_mod_cast (by omega : 0 < b + s)
  set q : ℚ := (s : ℚ) / ((b + s : ℕ) : ℚ) with hq
  have hq_le : q ≤ 1 := by
    rw [hq, div_le_one htotQ]
    exact_mod_cast Nat.le_add_left s b
  have hq_gt : (1 : ℚ) / 2 < q := by
    rw [hq, div_lt_div_iff₀ (by norm_num) htotQ]
    have hcast : ((b + s : ℕ) : ℚ) = (b : ℚ) + (s : ℚ) := by push_cast; ring
    have hbs : (b : ℚ) < (s : ℚ) := by exact_mod_cast h
    rw [hcast]; linarith
  have harg : ¬ ((3 : ℚ) - q * 2 < 0) := not_lt.mpr (by nlinarith)
  have hfloor : ⌊(3 : ℚ) - q * 2⌋ = 1 := by
    apply Int.floor_eq_iff.mpr
    refine ⟨by push_cast; nlinarith, by push_cast; nlinarith⟩
  unfold bearish_score pyTrunc
  rw [← hq, if_neg harg, hfloor]
  norm_num

theorem signal_score_bearish_aux (b s : ℕ) (h : b < s) :
    signal_score b s = (1, "看跌") := by
  unfold signal_score
  rw [if_neg (by omega : ¬ b + s = 0), if_neg (by omega : ¬ s < b), if_pos h,
    bearish_score_eq b s h, if_pos (le_refl (1 : ℤ))]

/-- C10: with `sell_count > buy_count` the ratio lies in `(1/2, 1]`, so
`int(3 - ratio*2)` truncates to 1; the score is always exactly 1 and the label
always `看跌` — score 2 or the label `偏空` is unreachable for a bearish
majority. -/
theorem signal_score_bearish_majority (b s : ℕ) (h : b < s) :
    signal_score b s = (1, "看跌") :=
  signal_score_bearish_aux b s h

/-- C10, witness: two buy signals against three sell signals give score 1 and
label `看跌`. -/
theorem signal_score_bearish_majority_witness : signal_score 2 3 = (1, "看跌") :=
  signal_score_bearish_majority 2 3 (by omega)

/-- C1, counterexample: with 4 buy signals and 1 sell signal the code truncates
`3 + 0.8*2 = 4.6` to score 4, while the claimed formula
`min(5, round(3 + ratio*2))` gives 5. -/
theorem signal_score_c1_counterexample :
    (signal_score 4 1).1 = 4
    ∧ min (5 : ℤ) (round ((3 : ℚ) + (4 : ℚ) / ((4 : ℚ) + 1) * 2)) = 5
    ∧ (signal_score 4 1).1 ≠ min (5 : ℤ) (round ((3 : ℚ) + (4 : ℚ) / ((4 : ℚ) + 1) * 2)) := by
  have h1 : (signal_score 4 1).1 = 4 := by
    rw [signal_score_bullish 4 1 (by omega)]
    norm_num
  have harg : ((3 : ℚ) + (4 : ℚ) / ((4 : ℚ) + 1) * 2) = 23 / 5 := by norm_num
  have h2 : min (5 : ℤ) (round ((3 : ℚ) + (4 : ℚ) / ((4 : ℚ) + 1) * 2)) = 5 := by
    rw [harg, round_eq]
    have hsum : (23 : ℚ) / 5 + 1 / 2 = 51 / 10 := by norm_num
    rw [hsum]
    rw [show ⌊(51 : ℚ) / 10⌋ = 5 from Int.floor_eq_iff.mpr ⟨by norm_num, by norm_num⟩]
    exact min_self 5
  refine ⟨h1, h2, ?_⟩
  rw [h1, h2]
  omega

/-- C1, amended: the code truncates (`int()`) instead of rounding, so for
`buy_count > sell_count` the score is `min(5, trunc(3 + ratio*2))`, which is 5
when there are no sell signals and 4 otherwise, always labelled `看涨`
(score ≥ 4); symmetrically for `sell_count > buy_count` the score is
`max(1, trunc(3 - ratio*2))`, which is always 1, labelled `看跌` (score ≤ 1). -/
theorem signal_score_amended (b s : ℕ) :
    (s < b → signal_score b s = ((if s = 0 then 5 else 4 : ℤ), "看涨"))
    ∧ (b < s → signal_score b s = (1, "看跌")) :=
  ⟨signal_score_bullish b s, signal_score_bearish_aux b s⟩

/-- C1, witness: 4 buys vs 1 sell give (4, 看涨); 1 buy vs 4 sells give
(1, 看跌). -/
theorem signal_score_amended_witness :
    signal_score 4 1 = (4, "看涨") ∧ signal_score 1 4 = (1, "看跌") := by
  constructor
  · have h := (signal_score_amended 4 1).1 (by omega)
    simpa using h
  · exact (signal_score_amended 1 4).2 (by omega)

/-! ## PatternMatcher.calculate_similarity (pattern_matcher.py lines 65-86) -/

/-- Model of `np.linspace(0, 1, n)`. -/
def linspace01 {α : Type} [LinearOrderedField α] (n : ℕ) : List α :=
  if n = 1 then [0] else (List.range n).map (fun i => (i : α) / ((n : α) - 1))

/-- Tail recursion of piecewise-linear interpolation: `x0, f0` is the last
table point already passed. -/
def interpFrom {α : Type} [LinearOrderedField α] (x x0 f0 : α) :
    List α → List α → α
  | x1 :: xs, f1 :: fs =>
    if x ≤ x1 then f0 + (x - x0) * (f1 - f0) / (x1 - x0)
    else interpFrom x x1 f1 xs fs
  | _, _ => f0

/-- Model of `np.interp(x, xp, fp)` for a single sample point `x`. -/
def interpAt {α : Type} [LinearOrderedField α] (xp fp : List α) (x : α) : α :=
  match xp, fp with
  | x0 :: xs, f0 :: fs => if x ≤ x0 then f0 else interpFrom x x0 f0 xs fs
  | _, _ => 0

/-- Common tail of `PatternMatcher.calculate_similarity` after the length
alignment: normalize both sequences, take the Euclidean distance, rescale by
the maximal possible distance `sqrt(len)` and clamp at 0. -/
noncomputable def similarity_core (p1 p2 : List ℝ) : ℝ :=
  max 0 (100 * (1 -
    Real.sqrt ((List.zipWith (fun a b => (a - b) ^ 2)
        (normalize_pattern p1) (normalize_pattern p2)).sum)
      / Real.sqrt (((normalize_pattern p1).length : ℝ))))

/-- Model of `PatternMatcher.calculate_similarity`: sequences of different
lengths are first resampled onto the shorter length by linear interpolation
over evenly spaced positions in `[0,1]`. -/
noncomputable def calculate_similarity (pattern1 pattern2 : List ℝ) : ℝ :=
  if pattern1.length ≠ pattern2.length then
    similarity_core
      ((linspace01 (min pattern1.length pattern2.length)).map
        (interpAt (linspace01 pattern1.length) pattern1))
      ((linspace01 (min pattern1.length pattern2.length)).map
        (interpAt (linspace01 pattern2.length) pattern2))
  else similarity_core pattern1 pattern2

theorem zipWith_sub_sq_self_sum (l : List ℝ) :
    (List.zipWith (fun a b => (a - b) ^ 2) l l).sum = 0 := by
  induction l with
  | nil => rfl
  | cons x xs ih => simp [List.zipWith_cons_cons, ih]

theorem zipWith_sub_sq_sum_nonneg :
    ∀ (l1 l2 : List ℝ), 0 ≤ (List.zipWith (fun a b => (a - b) ^ 2) l1 l2).sum := by
  intro l1
  induction l1 with
  | nil => intro l2; simp
  | cons x xs ih =>
    intro l2
    cases l2 with
    | nil => simp
    | cons y ys =>
      simp only [List.zipWith_cons_cons, List.sum_cons]
      have h1 : (0 : ℝ) ≤ (x - y) ^ 2 := sq_nonneg _
      have h2 := ih ys
      linarith

theorem similarity_core_self (p : List ℝ) : similarity_core p p = 100 := by
  unfold similarity_core
  rw [zipWith_sub_sq_self_sum, Real.sqrt_zero, zero_div]
  norm_num

theorem similarity_core_le (p1 p2 : List ℝ) : similarity_core p1 p2 ≤ 100 := by
  unfold similarity_core
  have hd : 0 ≤ Real.sqrt ((List.zipWith (fun a b => (a - b) ^ 2)
      (normalize_pattern p1) (normalize_pattern p2)).sum) := Real.sqrt_nonneg _
  have hm : 0 ≤ Real.sqrt (((normalize_pattern p1).length : ℝ)) := Real.sqrt_nonneg _
  have hq : 0 ≤ Real.sqrt ((List.zipWith (fun a b => (a - b) ^ 2)
        (normalize_pattern p1) (normalize_pattern p2)).sum)
      / Real.sqrt (((normalize_pattern p1).length : ℝ)) := div_nonneg hd hm
  apply max_le
  · norm_num
  · nlinarith

theorem similarity_core_comm (p1 p2 : List ℝ) (h : p1.length = p2.length) :
    similarity_core p1 p2 = similarity_core p2 p1 := by
  unfold similarity_core
  rw [List.zipWith_comm_of_comm (fun a b => (a - b) ^ 2) (fun x y => by ring)]
  rw [normalize_pattern_length, normalize_pattern_length, h]

/-- C8: self-similarity is 100, no pair of sequences exceeds 100, and the
similarity of equal-length sequences is symmetric. -/
theorem calculate_similarity_props :
    (∀ x : List ℝ, calculate_similarity x x = 100)
    ∧ (∀ a b : List ℝ, calculate_similarity a b ≤ 100)
    ∧ (∀ a b : List ℝ, a.length = b.length →
        calculate_similarity a b = calculate_similarity b a) := by
  refine ⟨?_, ?_, ?_⟩
  · intro x
    unfold calculate_similarity
    rw [if_neg (fun hne => hne rfl)]
    exact similarity_core_self x
  · intro a b
    unfold calculate_similarity
    split
    · exact similarity_core_le _ _
    · exact similarity_core_le _ _
  · intro a b h
    unfold calculate_similarity
    rw [if_neg (fun hne => hne h), if_neg (fun hne => hne h.symm)]
    exact similarity_core_comm a b h

/-- C8, witness: symmetry and self-similarity on concrete sequences. -/
theorem calculate_similarity_props_witness :
    calculate_similarity [(1 : ℝ), 2] [2, 1] = calculate_similarity [2, 1] [1, 2]
    ∧ calculate_similarity [(1 : ℝ), 2] [1, 2] = 100 :=
  ⟨calculate_similarity_props.2.2 [(1 : ℝ), 2] [(2 : ℝ), 1] rfl,
   calculate_similarity_props.1 [(1 : ℝ), 2]⟩

/-! ## PatternMatcher.find_similar_patterns (pattern_matcher.py lines 88-135) -/

structure PatternMatch where
  start_idx : ℕ
  end_idx : ℕ
  similarity : ℝ
  future_return : ℝ
  pattern_start_price : ℝ
  pattern_end_price : ℝ

/-- Forward return of the window `prices[i : i+pattern_days]`: percentage move
from the window's last close to the last of the up-to-10 following closes, 0
when no bar follows the window. -/
noncomputable def future_return_of (prices : List ℝ) (pattern_days i : ℕ) : ℝ :=
  if 0 < ((prices.drop (i + pattern_days)).take 10).length then
    (((prices.drop (i + pattern_days)).take 10).getLastD 0
        - ((prices.drop i).take pattern_days).getLastD 0)
      / ((prices.drop i).take pattern_days).getLastD 0 * 100
  else 0

/-- Candidate produced by one iteration of the scan loop of
`find_similar_patterns`: the window `prices[i : i+pattern_days]` is kept only
when its similarity to the current pattern exceeds 50. -/
noncomputable def scan_candidate (prices : List ℝ) (pattern_days : ℕ)
    (current_pattern : List ℝ) (i : ℕ) : Option PatternMatch :=
  if 50 < calculate_similarity current_pattern ((prices.drop i).take pattern_days) then
    some ⟨i, i + pattern_days,
      calculate_similarity current_pattern ((prices.drop i).take pattern_days),
      future_return_of prices pattern_days i,
      ((prices.drop i).take pattern_days).headD 0,
      ((prices.drop i).take pattern_days).getLastD 0⟩
  else none

/-- Model of `PatternMatcher.find_similar_patterns` on an already-fetched close
series: the data-access step `get_stock_klines` is an external collaborator, so
`prices` is the input and `lookback_days` (only used for fetching) is unused.
Python's stable `list.sort(key=..., reverse=True)` is modelled by a stable
merge sort on the reversed comparison. -/
noncomputable def find_similar_patterns (prices : List ℝ)
    (pattern_days lookback_days top_n : ℕ) : List PatternMatch :=
  if prices.length < pattern_days + 30 then []
  else
    (((List.range (prices.length - pattern_days - 10 - pattern_days)).filterMap
        (scan_candidate prices pattern_days
          (prices.drop (prices.length - pattern_days)))).mergeSort
      (fun a b => decide (b.similarity ≤ a.similarity))).take top_n

theorem scan_candidate_start_idx {prices : List ℝ} {pattern_days : ℕ}
    {current_pattern : List ℝ} {i : ℕ} {m : PatternMatch}
    (h : scan_candidate prices pattern_days current_pattern i = some m) :
    m.start_idx = i := by
  unfold scan_candidate at h
  split at h
  · exact (congrArg PatternMatch.start_idx (Option.some.inj h)).symm
  · cases h

/-- Every returned match starts in the scanned range
`0 ≤ i < L - pattern_days - 10 - pattern_days` (the Python `range` excludes
its bound). -/
theorem mem_find_similar_patterns_start {prices : List ℝ}
    {pattern_days lookback_days top_n : ℕ} {m : PatternMatch}
    (h : m ∈ find_similar_patterns prices pattern_days lookback_days top_n) :
    m.start_idx + pattern_days + 10 + pattern_days < prices.length := by
  unfold find_similar_patterns at h
  split at h
  · cases h
  · rename_i hlen
    have h1 : m ∈ (List.range (prices.length - pattern_days - 10 - pattern_days)).filterMap
        (scan_candidate prices pattern_days (prices.drop (prices.length - pattern_days))) := by
      have h2 := List.mem_of_mem_take h
      exact List.mem_mergeSort.mp h2
    rcases List.mem_filterMap.mp h1 with ⟨i, hi, hsc⟩
    have hidx := scan_candidate_start_idx hsc
    have hrange := List.mem_range.mp hi
    omega

/-- C3, amended: the scan covers candidate start indices `i` with
`0 ≤ i < L - P - 10 - P` only (the bound itself is excluded), so every
returned match satisfies `start_idx + 2·P + 10 < L`; in particular, for a
150-bar series with P = 20 the window starting at index 100 is outside the
scanned range and can never be returned. -/
theorem find_similar_patterns_scan_bound (prices : List ℝ)
    (pattern_days lookback_days top_n : ℕ) :
    (find_similar_patterns prices pattern_days lookback_days top_n).all
      (fun m => decide (m.start_idx + pattern_days + 10 + pattern_days < prices.length))
      = true := by
  rw [List.all_eq_true]
  intro m hm
  exact decide_eq_true (mem_find_similar_patterns_start hm)

/-- C3, witness: the scan bound instantiated at a concrete series. -/
theorem find_similar_patterns_scan_bound_witness :
    (find_similar_patterns [(1 : ℝ), 2, 3] 20 100 5).all
      (fun m => decide (m.start_idx + 20 + 10 + 20 < ([(1 : ℝ), 2, 3]).length)) = true :=
  find_similar_patterns_scan_bound [(1 : ℝ), 2, 3] 20 100 5

/-- Distinctive 20-bar ramp used to build the C3 counterexample series. -/
def c3ramp : List ℚ := (List.range 20).map (fun i => (i : ℚ))

/-- 150-bar series whose 20-bar window at index 100 is an exact copy of the
final 20 closes (both are `c3ramp`), and of no other window. -/
def c3q : List ℚ :=
  List.replicate 100 10 ++ c3ramp ++ List.replicate 10 10 ++ c3ramp

noncomputable def c3prices : List ℝ := c3q.map Rat.cast

set_option maxRecDepth 8000 in
/-- C3, counterexample: a 150-bar series whose 20-bar window at index 100
exactly copies the final 20 closes, yet no returned match starts at index 100
— the scan stops at index 99, so that window is never a candidate, hence never
returned (and a fortiori never ranked first). -/
theorem find_similar_patterns_c3_counterexample :
    c3prices.length = 150
    ∧ (c3prices.drop 100).take 20 = (c3prices.drop 130).take 20
    ∧ (find_similar_patterns c3prices 20 100 5).all
        (fun m => decide (¬ m.start_idx = 100)) = true := by
  have hlen : c3prices.length = 150 := by
    unfold c3prices
    rw [List.length_map]
    decide
  refine ⟨hlen, ?_, ?_⟩
  · have hq : (c3q.drop 100).take 20 = (c3q.drop 130).take 20 := by decide
    unfold c3prices
    rw [← List.map_drop, ← List.map_take, hq, List.map_take, List.map_drop]
  · rw [List.all_eq_true]
    intro m hm
    have hb := mem_find_similar_patterns_start hm
    rw [hlen] at hb
    exact decide_eq_true (by omega)

/-! ## Sort order of the returned matches (C7) -/

theorem sublist_pair_nodup {α : Type} {a b : α} :
    ∀ {l : List α}, l.Nodup → List.Sublist [a, b] l → List.Sublist [b, a] l → a = b := by
  intro l
  induction l with
  | nil => intro _ h; cases h
  | cons x t ih =>
    intro hnd h1 h2
    cases h1 with
    | cons _ h1' =>
      cases h2 with
      | cons _ h2' => exact ih (List.Nodup.sublist (List.sublist_cons_self x t) hnd) h1' h2'
      | cons₂ _ h2' =>
        -- here the head is b, and [a, b] <+ t gives b ∈ t, contradicting Nodup
        have hbt : b ∈ t := h1'.subset (List.mem_cons_of_mem a (List.mem_cons_self b []))
        exact absurd hbt (List.nodup_cons.mp hnd).1
    | cons₂ _ h1' =>
      -- here the head is a, and [b, a] <+ t gives a ∈ t, contradicting Nodup
      cases h2 with
      | cons _ h2' =>
        have hat : a ∈ t := h2'.subset (List.mem_cons_of_mem b (List.mem_cons_self a []))
        exact absurd hat (List.nodup_cons.mp hnd).1
      | cons₂ _ h2' => rfl

theorem pairwise_mem_rel {α : Type} {R : α → α → Prop} {a b : α} :
    ∀ {l : List α}, l.Pairwise R → a ∈ l → b ∈ l → a ≠ b → R a b ∨ R b a := by
  intro l
  induction l with
  | nil => intro _ h; cases h
  | cons x t ih =>
    intro hp ha hb hne
    have hx := List.pairwise_cons.mp hp
    rcases List.mem_cons.mp ha with rfl | hat
    · rcases List.mem_cons.mp hb with rfl | hbt
      · exact absurd rfl hne
      · exact Or.inl (hx.1 _ hbt)
    · rcases List.mem_cons.mp hb with rfl | hbt
      · exact Or.inr (hx.1 _ hat)
      · exact ih hx.2 hat hbt hne

theorem pair_sublist_of_pairwise {α : Type} {R : α → α → Prop}
    (hasymm : ∀ x y, R x y → ¬ R y x) {a b : α} :
    ∀ {l : List α}, l.Pairwise R → a ∈ l → b ∈ l → R a b → List.Sublist [a, b] l := by
  intro l
  induction l with
  | nil => intro _ h; cases h
  | cons x t ih =>
    intro hp ha hb hab
    have hx := List.pairwise_cons.mp hp
    rcases List.mem_cons.mp ha with rfl | hat
    · rcases List.mem_cons.mp hb with rfl | hbt
      · exact absurd hab (hasymm _ _ hab)
      · exact List.Sublist.cons₂ _ (List.singleton_sublist.mpr hbt)
    · rcases List.mem_cons.mp hb with rfl | hbt
      · exact absurd hab (hasymm _ _ (hx.1 _ hat))
      · exact List.Sublist.cons _ (ih hx.2 hat hbt hab)

/-- Stability of the modelled sort: on an input whose start indices strictly
increase, the merge sort by descending similarity yields a list that is
pairwise ordered with ties broken by the original index order. -/
theorem mergeSort_stable_pairwise (l : List PatternMatch)
    (hl : l.Pairwise (fun a b => a.start_idx < b.start_idx)) :
    (l.mergeSort (fun a b => decide (b.similarity ≤ a.similarity))).Pairwise
      (fun a b => b.similarity ≤ a.similarity
        ∧ (a.similarity ≤ b.similarity → a.start_idx < b.start_idx)) := by
  have htrans : ∀ a b c : PatternMatch,
      (fun a b => decide (b.similarity ≤ a.similarity)) a b →
      (fun a b => decide (b.similarity ≤ a.similarity)) b c →
      (fun a b => decide (b.similarity ≤ a.similarity)) a c := by
    intro a b c hab hbc
    simp only [decide_eq_true_eq] at *
    exact le_trans hbc hab
  have htotal : ∀ a b : PatternMatch,
      ((fun a b => decide (b.similarity ≤ a.similarity)) a b
        || (fun a b => decide (b.similarity ≤ a.similarity)) b a) = true := by
    intro a b
    simp only [Bool.or_eq_true, decide_eq_true_eq]
    exact le_total b.similarity a.similarity
  have hsorted := List.sorted_mergeSort htrans htotal l
  have hperm := List.mergeSort_perm l (fun a b => decide (b.similarity ≤ a.similarity))
  have hnl : l.Nodup := hl.imp (fun {a b} h heq => by rw [heq] at h; exact lt_irrefl _ h)
  have hnodup : (l.mergeSort (fun a b => decide (b.similarity ≤ a.similarity))).Nodup :=
    hperm.symm.nodup hnl
  rw [List.pairwise_iff_forall_sublist]
  intro a b hsub
  have hle_ab := List.pairwise_iff_forall_sublist.mp hsorted hsub
  have h1 : b.similarity ≤ a.similarity := by
    simpa only [decide_eq_true_eq] using hle_ab
  refine ⟨h1, ?_⟩
  intro h2
  by_contra hidx
  have hne : a ≠ b := by
    intro he
    subst he
    have hdup : ([a, a] : List PatternMatch).Nodup := List.Nodup.sublist hsub hnodup
    simp at hdup
  have hma : a ∈ l := hperm.subset (hsub.subset (by simp))
  have hmb : b ∈ l := hperm.subset (hsub.subset (by simp))
  have hR : b.start_idx < a.start_idx := by
    rcases pairwise_mem_rel hl hma hmb hne with h | h
    · exact absurd h hidx
    · exact h
  have hpair : List.Sublist [b, a] l :=
    pair_sublist_of_pairwise (fun x y hxy hyx => by omega) hl hmb hma hR
  have hba : (fun a b : PatternMatch => decide (b.similarity ≤ a.similarity)) b a = true := by
    simpa only [decide_eq_true_eq] using h2
  have hsub2 := List.pair_sublist_mergeSort htrans htotal hba hpair
  exact absurd (sublist_pair_nodup hnodup hsub hsub2) hne

/-- C7: the match list returned by `find_similar_patterns` is sorted by
non-increasing similarity, and matches of equal similarity appear in the order
of their candidate start indices (earlier window first), because Python's sort
is stable and candidates are generated in increasing index order. -/
theorem find_similar_patterns_sorted (prices : List ℝ)
    (pattern_days lookback_days top_n : ℕ) :
    (find_similar_patterns prices pattern_days lookback_days top_n).Pairwise
      (fun a b => b.similarity ≤ a.similarity
        ∧ (a.similarity ≤ b.similarity → a.start_idx < b.start_idx)) := by
  unfold find_similar_patterns
  split
  · exact List.Pairwise.nil
  · apply List.Pairwise.sublist (List.take_sublist _ _)
    apply mergeSort_stable_pairwise
    apply List.pairwise_filterMap.mpr
    apply (List.pairwise_lt_range _).imp
    intro i j hij
    intro x hx y hy
    have hxi := scan_candidate_start_idx hx
    have hyj := scan_candidate_start_idx hy
    rw [hxi, hyj]
    exact hij

/-- C7, witness: the sortedness statement instantiated at a concrete series. -/
theorem find_similar_patterns_sorted_witness :
    (find_similar_patterns [(4 : ℝ), 5, 6] 20 100 5).Pairwise
      (fun a b => b.similarity ≤ a.similarity
        ∧ (a.similarity ≤ b.similarity → a.start_idx < b.start_idx)) :=
  find_similar_patterns_sorted [(4 : ℝ), 5, 6] 20 100 5

/-! ## PatternMatcher.analyze_pattern_outcome (pattern_matcher.py lines 137-167) -/

structure PatternOutcome where
  ticker : String
  pattern_days : ℕ
  similar_count : ℕ
  win_rate : Option ℝ
  avg_return : Option ℝ
  avg_similarity : Option ℝ
  best_match : Option PatternMatch
  matches' : List PatternMatch
  message : Option String

/-- Model of `PatternMatcher.analyze_pattern_outcome`: the dictionary returned
by the source is modelled by `PatternOutcome`; keys that the insufficient-data
branch omits (`avg_similarity`, `best_match`, `matches`) become `none` / `[]`,
and `None` values become `none`. -/
noncomputable def analyze_pattern_outcome (ticker : String) (prices : List ℝ)
    (pattern_days : ℕ) : PatternOutcome :=
  if (find_similar_patterns prices pattern_days 200 20).isEmpty then
    ⟨ticker, pattern_days, 0, none, none, none, none, [], some "未找到足够的相似形态"⟩
  else
    ⟨ticker, pattern_days, (find_similar_patterns prices pattern_days 200 20).length,
      some ((((find_similar_patterns prices pattern_days 200 20).countP
            (fun mt => decide (0 < mt.future_return))) : ℝ)
        / ((find_similar_patterns prices pattern_days 200 20).length : ℝ) * 100),
      some (((find_similar_patterns prices pattern_days 200 20).map
            (fun mt => mt.future_return)).sum
        / ((find_similar_patterns prices pattern_days 200 20).length : ℝ)),
      some (((find_similar_patterns prices pattern_days 200 20).map
            (fun mt => mt.similarity)).sum
        / ((find_similar_patterns prices pattern_days 200 20).length : ℝ)),
      (find_similar_patterns prices pattern_days 200 20).head?,
      (find_similar_patterns prices pattern_days 200 20).take 5,
      none⟩

/-- C4: when the history is shorter than `pattern_days + 30` bars the match
list is empty, and an empty match list yields the explicit insufficient-data
result: message present, `win_rate`, `avg_return`, `avg_similarity` and
`best_match` all undefined (`none`, never 0); otherwise `win_rate` is defined
and equals `win_count / sample_count * 100` exactly, with no message. -/
theorem analyze_pattern_outcome_stats (ticker : String) (prices : List ℝ) (pd : ℕ) :
    (prices.length < pd + 30 → find_similar_patterns prices pd 200 20 = [])
    ∧ (find_similar_patterns prices pd 200 20 = [] →
        (analyze_pattern_outcome ticker prices pd).win_rate = none
        ∧ (analyze_pattern_outcome ticker prices pd).avg_return = none
        ∧ (analyze_pattern_outcome ticker prices pd).avg_similarity = none
        ∧ (analyze_pattern_outcome ticker prices pd).best_match = none
        ∧ (analyze_pattern_outcome ticker prices pd).message = some "未找到足够的相似形态")
    ∧ (find_similar_patterns prices pd 200 20 ≠ [] →
        (analyze_pattern_outcome ticker prices pd).win_rate =
          some ((((find_similar_patterns prices pd 200 20).countP
                (fun mt => decide (0 < mt.future_return))) : ℝ)
            / ((find_similar_patterns prices pd 200 20).length : ℝ) * 100)
        ∧ (analyze_pattern_outcome ticker prices pd).message = none) := by
  refine ⟨?_, ?_, ?_⟩
  · intro h
    unfold find_similar_patterns
    rw [if_pos h]
  · intro h
    have hres : analyze_pattern_outcome ticker prices pd =
        ⟨ticker, pd, 0, none, none, none, none, [], some "未找到足够的相似形态"⟩ := by
      unfold analyze_pattern_outcome
      rw [h]
      rfl
    rw [hres]
    exact ⟨rfl, rfl, rfl, rfl, rfl⟩
  · intro h
    have hemp : ¬ ((find_similar_patterns prices pd 200 20).isEmpty = true) := by
      rw [List.isEmpty_iff]
      exact h
    constructor
    · unfold analyze_pattern_outcome
      rw [if_neg hemp]
    · unfold analyze_pattern_outcome
      rw [if_neg hemp]

theorem getLastD_replicate {c d : ℝ} : ∀ {k : ℕ}, 0 < k →
    (List.replicate k c).getLastD d = c := by
  intro k
  induction k with
  | zero => intro h; cases h
  | succ n ih =>
    intro _
    rw [List.replicate_succ, List.getLastD_cons]
    cases n with
    | zero => rfl
    | succ n2 => exact ih (Nat.succ_pos n2)

theorem headD_replicate {c d : ℝ} {k : ℕ} (h : 0 < k) :
    (List.replicate k c).headD d = c := by
  cases k with
  | zero => cases h
  | succ n => rfl

theorem filterMap_eq_map_of_forall {α β : Type} {f : α → Option β} {g : α → β} :
    ∀ {l : List α}, (∀ i ∈ l, f i = some (g i)) → l.filterMap f = l.map g := by
  intro l
  induction l with
  | nil => intro _; rfl
  | cons x xs ih =>
    intro h
    rw [List.filterMap_cons, h x (List.mem_cons_self x xs), List.map_cons,
      ih (fun i hi => h i (List.mem_cons_of_mem x hi))]

/-- Shared helper: self-similarity of any sequence evaluates to 100. -/
theorem calculate_similarity_self (x : List ℝ) : calculate_similarity x x = 100 := by
  unfold calculate_similarity
  rw [if_neg (fun hne => hne rfl)]
  exact similarity_core_self x

/-- On a constant series every scanned window is kept with similarity 100 and
forward return 0, in scan order. -/
theorem find_similar_patterns_const (c : ℝ) (m pd lb tn : ℕ) (hpd : 1 ≤ pd)
    (h30 : pd + 30 ≤ m) :
    find_similar_patterns (List.replicate m c) pd lb tn
      = ((List.range (m - pd - 10 - pd)).map
          (fun i => (⟨i, i + pd, 100, 0, c, c⟩ : PatternMatch))).take tn := by
  unfold find_similar_patterns
  simp only [List.length_replicate]
  rw [if_neg (by omega)]
  have hcur : (List.replicate m c).drop (m - pd) = List.replicate pd c := by
    rw [List.drop_replicate]
    congr 1
    omega
  rw [hcur]
  have hfm : (List.range (m - pd - 10 - pd)).filterMap
      (scan_candidate (List.replicate m c) pd (List.replicate pd c))
      = (List.range (m - pd - 10 - pd)).map
        (fun i => (⟨i, i + pd, 100, 0, c, c⟩ : PatternMatch)) := by
    apply filterMap_eq_map_of_forall
    intro i hi
    have hirange := List.mem_range.mp hi
    have hipd : pd ≤ m - i := by omega
    have hist : ((List.replicate m c).drop i).take pd = List.replicate pd c := by
      rw [List.drop_replicate, List.take_replicate]
      congr 1
      omega
    have hsim : calculate_similarity (List.replicate pd c)
        (((List.replicate m c).drop i).take pd) = 100 := by
      rw [hist]
      exact calculate_similarity_self _
    have hfut : future_return_of (List.replicate m c) pd i = 0 := by
      unfold future_return_of
      have hfp : ((List.replicate m c).drop (i + pd)).take 10
          = List.replicate 10 c := by
        rw [List.drop_replicate, List.take_replicate]
        congr 1
        omega
      rw [hfp, hist]
      rw [if_pos (by rw [List.length_replicate]; omega)]
      rw [getLastD_replicate (by omega), getLastD_replicate (by omega)]
      rw [sub_self, zero_div, zero_mul]
    unfold scan_candidate
    rw [hsim, if_pos (by norm_num : (50 : ℝ) < 100), hfut, hist,
      getLastD_replicate (by omega : 0 < pd), headD_replicate (by omega : 0 < pd)]
  rw [hfm]
  have hsorted : ((List.range (m - pd - 10 - pd)).map
      (fun i => (⟨i, i + pd, 100, 0, c, c⟩ : PatternMatch))).Pairwise
      (fun a b => (fun a b : PatternMatch =>
        decide (b.similarity ≤ a.similarity)) a b = true) := by
    rw [List.pairwise_map]
    exact (List.pairwise_lt_range _).imp
      (fun _ => decide_eq_true (le_refl (100 : ℝ)))
  rw [List.mergeSort_of_sorted hsorted]

/-- C4, witness: an empty history gives the undefined win rate; a constant
35-bar history with pattern length 5 has a nonempty match list, so its win
rate is defined (here `0/15*100`). -/
theorem analyze_pattern_outcome_stats_witness :
    (analyze_pattern_outcome "600000" [] 20).win_rate = none
    ∧ (analyze_pattern_outcome "600000" (List.replicate 35 (10 : ℝ)) 5).win_rate ≠ none := by
  constructor
  · exact ((analyze_pattern_outcome_stats "600000" [] 20).2.1
      ((analyze_pattern_outcome_stats "600000" [] 20).1 (by norm_num))).1
  · have hfind := find_similar_patterns_const (10 : ℝ) 35 5 200 20
      (by norm_num) (by norm_num)
    have hne : find_similar_patterns (List.replicate 35 (10 : ℝ)) 5 200 20 ≠ [] := by
      rw [hfind]
      intro hnil
      have hlen := congrArg List.length hnil
      simp [List.length_take, List.length_map, List.length_range] at hlen
    have hwr := ((analyze_pattern_outcome_stats "600000"
      (List.replicate 35 (10 : ℝ)) 5).2.2 hne).1
    rw [hwr]
    simp

/-! ## TechnicalIndicators._kdj (technical_indicators.py lines 123-144) -/

/-- Python array read `arr[i-1]`: for `i = 0` the negative index `-1` wraps to
the last element of the array. -/
def pyPrev (l : List ℚ) (i : ℕ) : ℚ :=
  if i = 0 then l.getLastD 0 else l.getD (i - 1) 0

/-- Raw stochastic value of `_kdj` at index `i` (defined for `i ≥ n - 1`):
position of the close inside the trailing `n`-bar high/low range, or 50 when
the range is degenerate. -/
def kdj_rsv (close high low : List ℚ) (n i : ℕ) : ℚ :=
  if listMax ((high.drop (i + 1 - n)).take n) ≠ listMin ((low.drop (i + 1 - n)).take n) then
    (close.getD i 0 - listMin ((low.drop (i + 1 - n)).take n))
      / (listMax ((high.drop (i + 1 - n)).take n)
          - listMin ((low.drop (i + 1 - n)).take n)) * 100
  else 50

/-- One iteration of the `_kdj` loop: writes `k[i]` and `d[i]` in place, the
new `d[i]` using the just-written `k[i]`. -/
def kdj_step (close high low : List ℚ) (n : ℕ) (kd : List ℚ × List ℚ) (i : ℕ) :
    List ℚ × List ℚ :=
  (kd.1.set i (2 / 3 * pyPrev kd.1 i + 1 / 3 * kdj_rsv close high low n i),
   kd.2.set i (2 / 3 * pyPrev kd.2 i
     + 1 / 3 * (2 / 3 * pyPrev kd.1 i + 1 / 3 * kdj_rsv close high low n i)))

/-- The `k` and `d` arrays of `_kdj`: both initialised to 50.0 at every index,
then updated in place for `i = n-1, ..., length-1`. -/
def kdj_kd (close high low : List ℚ) (n : ℕ) : List ℚ × List ℚ :=
  (List.range' (n - 1) (close.length - (n - 1))).foldl (kdj_step close high low n)
    (List.replicate close.length 50, List.replicate close.length 50)

/-- Model of `TechnicalIndicators._kdj`: returns the `k`, `d` and
`j = 3k - 2d` arrays. -/
def kdj (close high low : List ℚ) (n : ℕ) : List ℚ × List ℚ × List ℚ :=
  ((kdj_kd close high low n).1, (kdj_kd close high low n).2,
    List.zipWith (fun a b => 3 * a - 2 * b)
      (kdj_kd close high low n).1 (kdj_kd close high low n).2)

theorem kdj_foldl_length (close high low : List ℚ) (n : ℕ) :
    ∀ (idxs : List ℕ) (kd : List ℚ × List ℚ),
      ((idxs.foldl (kdj_step close high low n) kd).1.length = kd.1.length
        ∧ (idxs.foldl (kdj_step close high low n) kd).2.length = kd.2.length) := by
  intro idxs
  induction idxs with
  | nil => intro kd; exact ⟨rfl, rfl⟩
  | cons x xs ih =>
    intro kd
    rw [List.foldl_cons]
    refine ⟨?_, ?_⟩
    · rw [(ih _).1]
      exact List.length_set _ _ _
    · rw [(ih _).2]
      exact List.length_set _ _ _

theorem kdj_foldl_untouched (close high low : List ℚ) (n : ℕ) {j : ℕ} :
    ∀ (idxs : List ℕ) (kd : List ℚ × List ℚ), (∀ x ∈ idxs, j < x) →
      ((idxs.foldl (kdj_step close high low n) kd).1[j]? = kd.1[j]?
        ∧ (idxs.foldl (kdj_step close high low n) kd).2[j]? = kd.2[j]?) := by
  intro idxs
  induction idxs with
  | nil => intro kd _; exact ⟨rfl, rfl⟩
  | cons x xs ih =>
    intro kd hlt
    rw [List.foldl_cons]
    have hx : j < x := hlt x (List.mem_cons_self x xs)
    have hxs : ∀ y ∈ xs, j < y := fun y hy => hlt y (List.mem_cons_of_mem x hy)
    refine ⟨?_, ?_⟩
    · rw [(ih _ hxs).1]
      exact List.getElem?_set_ne (by omega)
    · rw [(ih _ hxs).2]
      exact List.getElem?_set_ne (by omega)

theorem kdj_kd_length (close high low : List ℚ) (n : ℕ) :
    (kdj_kd close high low n).1.length = close.length
    ∧ (kdj_kd close high low n).2.length = close.length := by
  unfold kdj_kd
  refine ⟨?_, ?_⟩
  · rw [(kdj_foldl_length close high low n _ _).1]
    exact List.length_replicate _ _
  · rw [(kdj_foldl_length close high low n _ _).2]
    exact List.length_replicate _ _

/-- C6: at every index strictly before the warm-up index `n-1` the `k` and `d`
arrays still hold the 50.0 baseline (never an undefined marker), and at every
index `j[i] = 3·k[i] - 2·d[i]` holds, the pre-warm-up positions included. -/
theorem kdj_warmup_baseline (close high low : List ℚ) (n i : ℕ) (hn : 1 ≤ n) :
    (i + 1 < n → i < close.length →
      ((kdj close high low n).1[i]? = some 50 ∧ (kdj close high low n).2.1[i]? = some 50))
    ∧ (i < close.length →
        (kdj close high low n).2.2[i]?
          = some (3 * ((kdj close high low n).1.getD i 0)
              - 2 * ((kdj close high low n).2.1.getD i 0))) := by
  constructor
  · intro hi hilen
    have huntouched := @kdj_foldl_untouched close high low n i
      (List.range' (n - 1) (close.length - (n - 1)))
      (List.replicate close.length 50, List.replicate close.length 50)
      (fun x hx => by
        have := List.mem_range'_1.mp hx
        omega)
    have hrep : (List.replicate close.length (50 : ℚ))[i]? = some 50 :=
      List.getElem?_replicate_of_lt hilen
    exact ⟨by rw [show (kdj close high low n).1 = (kdj_kd close high low n).1 from rfl,
        kdj_kd, huntouched.1, hrep],
      by rw [show (kdj close high low n).2.1 = (kdj_kd close high low n).2 from rfl,
        kdj_kd, huntouched.2, hrep]⟩
  · intro hilen
    have hk : i < (kdj_kd close high low n).1.length := by
      rw [(kdj_kd_length close high low n).1]; exact hilen
    have hd : i < (kdj_kd close high low n).2.length := by
      rw [(kdj_kd_length close high low n).2]; exact hilen
    have hksome : (kdj_kd close high low n).1[i]? = some ((kdj_kd close high low n).1.getD i 0) := by
      rw [List.getD_eq_getElem _ _ hk]
      exact List.getElem?_eq_getElem hk
    have hdsome : (kdj_kd close high low n).2[i]? = some ((kdj_kd close high low n).2.getD i 0) := by
      rw [List.getD_eq_getElem _ _ hd]
      exact List.getElem?_eq_getElem hd
    show (List.zipWith (fun a b => 3 * a - 2 * b)
        (kdj_kd close high low n).1 (kdj_kd close high low n).2)[i]? = _
    rw [List.getElem?_zipWith_eq_some]
    exact ⟨_, _, hksome, hdsome, rfl⟩

/-- C6, witness: on a 12-bar constant series with `n = 9`, index 3 is before
the warm-up and carries the 50.0 baseline, and `j = 3k - 2d` holds there. -/
theorem kdj_warmup_baseline_witness :
    ((kdj (List.replicate 12 (1 : ℚ)) (List.replicate 12 2) (List.replicate 12 1) 9).1[3]?
        = some 50)
    ∧ ((kdj (List.replicate 12 (1 : ℚ)) (List.replicate 12 2) (List.replicate 12 1) 9).2.2[3]?
        = some (3 * ((kdj (List.replicate 12 (1 : ℚ)) (List.replicate 12 2)
              (List.replicate 12 1) 9).1.getD 3 0)
            - 2 * ((kdj (List.replicate 12 (1 : ℚ)) (List.replicate 12 2)
              (List.replicate 12 1) 9).2.1.getD 3 0))) := by
  have h := kdj_warmup_baseline (List.replicate 12 (1 : ℚ)) (List.replicate 12 2)
    (List.replicate 12 1) 9 3 (by norm_num)
  refine ⟨(h.1 (by norm_num) (by simp)).1, h.2 (by simp)⟩

/-! ## analyze_stock entry point (technical_indicators.py lines 381-397) -/

structure Kline where
  datetime : ℤ
  opn : ℚ
  high : ℚ
  low : ℚ
  close : ℚ
  volume : ℚ
deriving DecidableEq

/-- Model of `df.sort_values('datetime')` in `analyze_stock`. -/
def sort_by_datetime (klines : List Kline) : List Kline :=
  klines.mergeSort (fun a b => decide (a.datetime ≤ b.datetime))

/-- Model of the input handling of `analyze_stock` together with the input
gate of `TechnicalIndicators.calculate_all` (lines 33-35): the bars are sorted
by datetime and handed to the indicator engine; `none` (the only failure-like
path, yielding the `数据不足` neutral result) occurs exactly for an empty
frame. The result is the bar sequence the indicators are computed on — there
is no ordering check anywhere on this path. -/
def analyze_stock_bars (klines : List Kline) : Option (List Kline) :=
  if (sort_by_datetime klines).isEmpty then none
  else some (sort_by_datetime klines)

theorem sort_by_datetime_trans :
    ∀ a b c : Kline, (fun a b : Kline => decide (a.datetime ≤ b.datetime)) a b →
      (fun a b : Kline => decide (a.datetime ≤ b.datetime)) b c →
      (fun a b : Kline => decide (a.datetime ≤ b.datetime)) a c := by
  intro a b c hab hbc
  simp only [decide_eq_true_eq] at *
  omega

theorem sort_by_datetime_total :
    ∀ a b : Kline, ((fun a b : Kline => decide (a.datetime ≤ b.datetime)) a b
      || (fun a b : Kline => decide (a.datetime ≤ b.datetime)) b a) = true := by
  intro a b
  simp only [Bool.or_eq_true, decide_eq_true_eq]
  omega

def kbarA : Kline := ⟨2, 10, 11, 9, 10, 100⟩
def kbarB : Kline := ⟨1, 10, 11, 9, 10, 100⟩
def kbarC : Kline := ⟨3, 10, 11, 9, 10, 100⟩

theorem sort_by_datetime_c2 :
    sort_by_datetime [kbarA, kbarB, kbarC] = [kbarB, kbarA, kbarC] := by
  refine @List.Perm.eq_of_sorted Kline
    (fun a b : Kline => decide (a.datetime ≤ b.datetime) = true) _ _ ?_ ?_ ?_ ?_
  · intro a b ha hb hab hba
    rw [sort_by_datetime, List.mem_mergeSort] at ha
    simp only [List.mem_cons, List.not_mem_nil, or_false] at ha hb
    rcases ha with rfl | rfl | rfl <;> rcases hb with rfl | rfl | rfl <;>
      revert hab hba <;> decide
  · exact List.sorted_mergeSort sort_by_datetime_trans sort_by_datetime_total _
  · refine List.pairwise_cons.mpr ⟨?_, List.pairwise_cons.mpr ⟨?_, ?_⟩⟩
    · intro b hb
      simp only [List.mem_cons, List.not_mem_nil, or_false] at hb
      rcases hb with rfl | rfl <;> decide
    · intro b hb
      simp only [List.mem_cons, List.not_mem_nil, or_false] at hb
      rcases hb with rfl <;> decide
    · exact List.pairwise_singleton _ _
  · exact (List.mergeSort_perm _ _).trans (List.Perm.swap kbarB kbarA [kbarC])

/-- C2, counterexample: a bar list whose timestamps 2, 1, 3 are not monotonic
is not rejected: `analyze_stock` silently sorts it and computes the analysis
on the reordered sequence. -/
theorem analyze_stock_bars_c2_counterexample :
    ¬ List.Pairwise (fun a b : Kline => a.datetime ≤ b.datetime) [kbarA, kbarB, kbarC]
    ∧ analyze_stock_bars [kbarA, kbarB, kbarC] = some [kbarB, kbarA, kbarC] := by
  constructor
  · intro h
    have hab := (List.pairwise_cons.mp h).1 kbarB (List.mem_cons_self _ _)
    revert hab
    decide
  · rw [analyze_stock_bars, sort_by_datetime_c2]
    rfl

/-- C2, amended: the entry point never rejects an out-of-order sequence — for
every nonempty bar list it silently corrects the order, handing the indicator
engine a permutation of the input bars sorted by non-decreasing datetime. -/
theorem analyze_stock_bars_sorts (klines : List Kline) (h : klines ≠ []) :
    ∃ df, analyze_stock_bars klines = some df
      ∧ List.Perm df klines
      ∧ List.Pairwise (fun a b : Kline => a.datetime ≤ b.datetime) df := by
  have hperm : List.Perm (sort_by_datetime klines) klines :=
    List.mergeSort_perm klines _
  have hne : sort_by_datetime klines ≠ [] := by
    intro hs
    apply h
    apply List.eq_nil_of_length_eq_zero
    rw [← hperm.length_eq, hs]
    rfl
  refine ⟨sort_by_datetime klines, ?_, hperm, ?_⟩
  · rw [analyze_stock_bars, if_neg (fun hemp => hne (List.isEmpty_iff.mp hemp))]
  · exact (List.sorted_mergeSort sort_by_datetime_trans sort_by_datetime_total klines).imp
      (fun hab => of_decide_eq_true hab)

/-- C2, witness: the amended statement applied to the concrete out-of-order
bar list. -/
theorem analyze_stock_bars_sorts_witness :
    (analyze_stock_bars [kbarA, kbarB, kbarC]).isSome = true := by
  rcases analyze_stock_bars_sorts [kbarA, kbarB, kbarC] (by decide) with ⟨df, hdf, -, -⟩
  rw [hdf]
  rfl

/-! ## batch_analyze_patterns endpoint (routes_pattern.py lines 60-84) -/

structure BatchResult (α : Type) where
  analyzed : ℕ
  results : List α

/-- Splitting on commas, model of Python `str.split(',')` (keeps empty
pieces). -/
def split_commas : List Char → List Char → List (List Char)
  | [], acc => [acc.reverse]
  | c :: cs, acc =>
    if c = ',' then acc.reverse :: split_commas cs []
    else split_commas cs (c :: acc)

def pySplit (s : String) : List String := (split_commas s.data []).map String.mk

/-- Model of Python `str.strip()`: drop leading and trailing whitespace. -/
def pyStrip (s : String) : String :=
  String.mk (((s.data.dropWhile Char.isWhitespace).reverse.dropWhile
    Char.isWhitespace).reverse)

/-- The per-ticker loop of the batch endpoint: each ticker is analyzed inside
`try/except`; a failure (`none`) is skipped with `continue`, a success is
appended. -/
def batch_loop {α : Type} (analyze : String → Option α) :
    List String → List α → List α
  | [], acc => acc
  | t :: ts, acc =>
    match analyze t with
    | some r => batch_loop analyze ts (acc ++ [r])
    | none => batch_loop analyze ts acc

/-- Model of `batch_analyze_patterns`: split the comma-separated ticker
string, strip each entry, cap at the first 10, then run the per-ticker loop;
`analyze` abstracts `analyze_stock_pattern`, with `none` standing for a raised
exception. The response reports only `analyzed` and `results` — there is no
error field for omitted or failed tickers. -/
def batch_analyze_patterns {α : Type} (analyze : String → Option α)
    (tickers : String) : BatchResult α :=
  ⟨(batch_loop analyze (((pySplit tickers).map pyStrip).take 10) []).length,
   batch_loop analyze (((pySplit tickers).map pyStrip).take 10) []⟩

theorem batch_loop_eq_filterMap {α : Type} (analyze : String → Option α) :
    ∀ (l : List String) (acc : List α),
      batch_loop analyze l acc = acc ++ l.filterMap analyze := by
  intro l
  induction l with
  | nil => intro acc; simp [batch_loop]
  | cons t ts ih =>
    intro acc
    cases h : analyze t with
    | none => simp [batch_loop, h, List.filterMap_cons, ih]
    | some r => simp [batch_loop, h, List.filterMap_cons, ih]

/-- C9: with 12 listed tickers exactly the first 10 are processed — the
results are the per-ticker successes over the first 10 entries in order, a
failing ticker among them is dropped without aborting the rest, and the
response is entirely independent of the analyzer's behaviour on the 2 omitted
tickers (in particular it reports no error for them). -/
theorem batch_analyze_patterns_caps {α : Type} (f : String → Option α)
    (tickers : String)
    (h12 : ((pySplit tickers).map pyStrip).length = 12) :
    (batch_analyze_patterns f tickers).results
      = (((pySplit tickers).map pyStrip).take 10).filterMap f
    ∧ (batch_analyze_patterns f tickers).analyzed
      = ((((pySplit tickers).map pyStrip).take 10).filterMap f).length
    ∧ (∀ g : String → Option α,
        (∀ t ∈ ((pySplit tickers).map pyStrip).take 10, f t = g t) →
        batch_analyze_patterns f tickers = batch_analyze_patterns g tickers) := by
  refine ⟨?_, ?_, ?_⟩
  · rw [show (batch_analyze_patterns f tickers).results
      = batch_loop f (((pySplit tickers).map pyStrip).take 10) [] from rfl]
    rw [batch_loop_eq_filterMap, List.nil_append]
  · rw [show (batch_analyze_patterns f tickers).analyzed
      = (batch_loop f (((pySplit tickers).map pyStrip).take 10) []).length from rfl]
    rw [batch_loop_eq_filterMap, List.nil_append]
  · intro g hfg
    have hfm : (((pySplit tickers).map pyStrip).take 10).filterMap f
        = (((pySplit tickers).map pyStrip).take 10).filterMap g :=
      List.filterMap_congr hfg
    unfold batch_analyze_patterns
    rw [batch_loop_eq_filterMap, batch_loop_eq_filterMap, List.nil_append,
      List.nil_append, hfm]

/-- C9, witness: 12 tickers, the third failing; the first 10 are processed and
the failure is dropped, leaving 9 results and nothing for the 2 omitted
tickers. -/
theorem batch_analyze_patterns_caps_witness :
    (batch_analyze_patterns
        (fun t => if t = "c" then none else some t) "a,b,c,d,e,f,g,h,i,j,k,l").results
      = ["a", "b", "d", "e", "f", "g", "h", "i", "j"]
    ∧ (batch_analyze_patterns
        (fun t => if t = "c" then none else some t) "a,b,c,d,e,f,g,h,i,j,k,l").analyzed
      = 9 := by
  have h12 : ((pySplit "a,b,c,d,e,f,g,h,i,j,k,l").map pyStrip).length = 12 := by
    decide
  have h := batch_analyze_patterns_caps
    (fun t => if t = "c" then none else some t) "a,b,c,d,e,f,g,h,i,j,k,l" h12
  refine ⟨?_, ?_⟩
  · rw [h.1]
    decide
  · rw [h.2.1]
    decide

end Ashare
